import Mathlib

/-!
Verification of the hoa-js/router dispatch core (src/router.js).

The JavaScript source is shallowly embedded:
* request parameter objects become association lists with JS object
  assignment semantics (`objSet` updates an existing key in place,
  otherwise appends);
* `decodeURIComponent` is modelled by percent-tokenization followed by
  strict UTF-8 decoding, returning `Except Unit` where JS throws
  `URIError`;
* middlewares are functions `Ctx → (Ctx → Except Unit ρ) → Except Unit ρ`
  over an explicit request-context record, and the host pipeline
  (hoa's `compose`, an external collaborator of this repository) is the
  standard continuation chaining `runPipeline`.
-/

set_option autoImplicit false
set_option maxRecDepth 8192

namespace HoaRouter

/-- Request parameters: a JS object keyed by capture name, kept as an
association list in insertion order. -/
abbrev Params := List (String × String)

/-- JS object property assignment `obj[k] = v`: update the existing entry
for `k` in place, otherwise append a new entry. -/
def objSet : Params → String → String → Params
  | [], k, v => [(k, v)]
  | kv :: rest, k, v =>
    if kv.1 = k then (k, v) :: rest else kv :: objSet rest k v

/-- JS object property read `obj[k]`: first entry for the key, if any. -/
def objGet : Params → String → Option String
  | [], _ => none
  | kv :: rest, k => if kv.1 = k then some kv.2 else objGet rest k

/-- Numeric value of a hexadecimal digit character, if it is one. -/
def hexDigit (c : Char) : Option Nat :=
  if '0' ≤ c ∧ c ≤ '9' then some (c.toNat - '0'.toNat)
  else if 'a' ≤ c ∧ c ≤ 'f' then some (c.toNat - 'a'.toNat + 10)
  else if 'A' ≤ c ∧ c ≤ 'F' then some (c.toNat - 'A'.toNat + 10)
  else none

/-- One unit of a percent-tokenized string: a literal character, or the
byte value of a `%XX` escape. -/
inductive Tok : Type where
  | lit (c : Char) : Tok
  | byte (b : Nat) : Tok
  deriving DecidableEq, Repr

/-- Tokenizer state: outside any escape, right after a `%`, or after a
`%` plus one hex digit whose value is remembered. -/
inductive EscState : Type where
  | normal : EscState
  | afterPct : EscState
  | afterHex (hi : Nat) : EscState
  deriving DecidableEq, Repr

/-- First phase of `decodeURIComponent`, as a character automaton: each
`%` must be followed by two hex digits and yields the escaped byte; any
other character passes through.  `none` models a thrown `URIError`
(including a truncated escape at the end of the input). -/
def tokLoop : EscState → List Char → Option (List Tok)
  | EscState.normal, [] => some []
  | EscState.afterPct, [] => none
  | EscState.afterHex _, [] => none
  | EscState.normal, c :: rest =>
    if c = '%' then tokLoop EscState.afterPct rest
    else (tokLoop EscState.normal rest).map (fun ts => Tok.lit c :: ts)
  | EscState.afterPct, c :: rest =>
    match hexDigit c with
    | some hi => tokLoop (EscState.afterHex hi) rest
    | none => none
  | EscState.afterHex hi, c :: rest =>
    match hexDigit c with
    | some lo => (tokLoop EscState.normal rest).map (fun ts => Tok.byte (hi * 16 + lo) :: ts)
    | none => none

/-- Percent-tokenization of a whole character list. -/
def tokenize (cs : List Char) : Option (List Tok) := tokLoop EscState.normal cs

/-- Whether a byte is a UTF-8 continuation byte `10xxxxxx`. -/
def isCont (b : Nat) : Prop := 0x80 ≤ b ∧ b < 0xC0

instance (b : Nat) : Decidable (isCont b) := by unfold isCont; infer_instance

/-- Second phase of `decodeURIComponent`, as a byte automaton: escape
bytes must form valid (minimal-length, non-surrogate, in-range) UTF-8
sequences, which a literal character may not interrupt.  The pending
state carries the accumulated code-point value, the number of
continuation bytes still expected, and the smallest code point the
sequence may legally produce (overlong rejection).  `none` models a
thrown `URIError`. -/
def utf8Loop : Option (Nat × Nat × Nat) → List Tok → Option (List Char)
  | none, [] => some []
  | some _, [] => none
  | none, Tok.lit c :: rest => (utf8Loop none rest).map (fun cs => c :: cs)
  | none, Tok.byte b :: rest =>
    if b < 0x80 then (utf8Loop none rest).map (fun cs => Char.ofNat b :: cs)
    else if b < 0xC2 then none
    else if b < 0xE0 then utf8Loop (some (b - 0xC0, 1, 0x80)) rest
    else if b < 0xF0 then utf8Loop (some (b - 0xE0, 2, 0x800)) rest
    else if b < 0xF5 then utf8Loop (some (b - 0xF0, 3, 0x10000)) rest
    else none
  | some _, Tok.lit _ :: _ => none
  | some (acc, rem, mn), Tok.byte b :: rest =>
    if isCont b then
      if rem = 1 then
        if mn ≤ acc * 64 + (b - 0x80) ∧ acc * 64 + (b - 0x80) ≤ 0x10FFFF ∧
            ¬(0xD800 ≤ acc * 64 + (b - 0x80) ∧ acc * 64 + (b - 0x80) < 0xE000) then
          (utf8Loop none rest).map (fun cs => Char.ofNat (acc * 64 + (b - 0x80)) :: cs)
        else none
      else utf8Loop (some (acc * 64 + (b - 0x80), rem - 1, mn)) rest
    else none

/-- UTF-8 decoding of a whole unit list. -/
def utf8Units (ts : List Tok) : Option (List Char) := utf8Loop none ts

/-- JS `decodeURIComponent`: percent-tokenize, then UTF-8 decode the
escape bytes.  `Except.error ()` models a thrown `URIError`. -/
def decodeURIComponent (s : String) : Except Unit String :=
  match tokenize s.data with
  | none => Except.error ()
  | some toks =>
    match utf8Units toks with
    | none => Except.error ()
    | some cs => Except.ok (String.mk cs)

/-- Embeds `decode` (src/router.js lines 102-104):
`if (val) return decodeURIComponent(val)` — falsy input (`undefined` or
the empty string) yields `undefined`; otherwise `decodeURIComponent`,
whose `URIError` propagates uncaught. -/
def decode : Option String → Except Unit (Option String)
  | none => Except.ok none
  | some v =>
    if v = "" then Except.ok none
    else
      match decodeURIComponent v with
      | Except.error e => Except.error e
      | Except.ok d => Except.ok (some d)

/-- Embeds `m.slice(1).map(decode)` (src/router.js line 78): decodes the
raw captures left to right; the first thrown `URIError` aborts. -/
def mapDecode : List (Option String) → Except Unit (List (Option String))
  | [] => Except.ok []
  | v :: rest =>
    match decode v with
    | Except.error e => Except.error e
    | Except.ok d =>
      match mapDecode rest with
      | Except.error e => Except.error e
      | Except.ok ds => Except.ok (d :: ds)

/-- Embeds the `keys.forEach` loop (src/router.js lines 79-86): assign
`params[key.name] = value` only when the decoded value is defined. -/
def assignPairs (ps : Params) (pairs : List (String × Option String)) : Params :=
  pairs.foldl
    (fun acc kv =>
      match kv.2 with
      | some v => objSet acc kv.1 v
      | none => acc) ps

/-- Parameter-object construction of `routeMiddleware` for given key names
and decoded arguments, starting from the fresh empty object `params = {}`. -/
def assignParams (keys : List String) (args : List (Option String)) : Params :=
  assignPairs [] (keys.zip args)

/-- Embeds src/router.js lines 77-86 as one function: decode every raw
capture, then build the parameter object (a thrown decode error aborts
before any assignment is observable). -/
def buildParams (keys : List String) (caps : List (Option String)) : Except Unit Params :=
  match mapDecode caps with
  | Except.error e => Except.error e
  | Except.ok args => Except.ok (assignParams keys args)

/-- The request descriptor `ctx.req`: the fields of the host's request
object that src/router.js reads (`method`, `pathname`) or writes
(`params`, `routePath`). -/
structure Req : Type where
  method : String
  pathname : String
  params : Params
  routePath : Option String
  deriving DecidableEq, Repr

/-- The Hoa context: the router only touches `ctx.req`. -/
structure Ctx : Type where
  req : Req
  deriving DecidableEq, Repr

/-- A middleware in the host pipeline: receives the context and a `next`
continuation; `Except.error ()` models an uncaught thrown error. -/
def Middleware (ρ : Type) : Type :=
  Ctx → (Ctx → Except Unit ρ) → Except Unit ρ

/-- Embeds the source function named `matches` (src/router.js lines
114-119; renamed here because that identifier is reserved in Lean, to the
spec's §4.3 name): catch-all routes match
any method; otherwise exact string equality, plus the one-directional
GET-serves-HEAD fallback. -/
def methodMatches (ctx : Ctx) (method : Option String) : Bool :=
  match method with
  | none => true
  | some m =>
    if ctx.req.method = m then true
    else if m = "GET" ∧ ctx.req.method = "HEAD" then true
    else false

/-- A registered route as closed over by `routeMiddleware`
(src/router.js lines 66-69): the method, the original pattern string
`path`, the compiled regexp abstracted as `exec` (returning the capture
groups `m.slice(1)`, where `none` entries are unmatched groups), the
ordered capture key names, and the composed handler chain. -/
structure Route (ρ : Type) : Type where
  method : Option String
  path : String
  exec : String → Option (List (Option String))
  keys : List String
  composed : Middleware ρ

/-- The context after a successful match: `ctx.req.params = params;
ctx.req.routePath = path` (src/router.js lines 88-89). -/
def setMatch (ctx : Ctx) (ps : Params) (path : String) : Ctx :=
  { ctx with req := { ctx.req with params := ps, routePath := some path } }

/-- Embeds `routeMiddleware` (src/router.js lines 71-92). -/
def routeMiddleware {ρ : Type} (r : Route ρ) : Middleware ρ :=
  fun ctx next =>
    if methodMatches ctx r.method then
      match r.exec ctx.req.pathname with
      | none => next ctx
      | some caps =>
        match buildParams r.keys caps with
        | Except.error e => Except.error e
        | Except.ok ps => r.composed (setMatch ctx ps r.path) next
    else next ctx

/-- Modelled from the spec: the host's middleware pipeline (hoa's
`compose` and `app.use`, external collaborators not under src/) — each
middleware receives the chaining of the remaining ones, ending in the
host's outer continuation (spec §1, §4.4 `next()` continuation contract). -/
def runPipeline {ρ : Type} : List (Middleware ρ) → (Ctx → Except Unit ρ) → Ctx → Except Unit ρ
  | [], outer, ctx => outer ctx
  | mw :: rest, outer, ctx => mw ctx (runPipeline rest outer)

/-- Dispatch over the registered routes in registration order: each
registration did `app.use(routeMiddleware)` (src/router.js line 47), so
the host runs the route middlewares chained in order, ending in the
host's outer continuation. -/
def dispatch {ρ : Type} (rs : List (Route ρ)) (outer : Ctx → Except Unit ρ) : Ctx → Except Unit ρ :=
  runPipeline (rs.map routeMiddleware) outer

/-- The combined match test of `routeMiddleware` (src/router.js lines
72-75): the method gate, then the compiled pattern applied to
`ctx.req.pathname`. -/
def routeMatch {ρ : Type} (r : Route ρ) (ctx : Ctx) : Option (List (Option String)) :=
  if methodMatches ctx r.method then r.exec ctx.req.pathname else none

/-- A handler chain that immediately invokes its terminal `next`. -/
def passThrough {ρ : Type} : Middleware ρ := fun ctx next => next ctx

/-- The registration error message of src/router.js line 42:
`Route ${method || 'ALL'} ${path} must have at least one handler`. -/
def routeErrMsg (method : Option String) (path : String) : String :=
  "Route " ++ method.getD "ALL" ++ " " ++ path ++ " must have at least one handler"

/-- Embeds `createRouteMethod` (src/router.js lines 39-51) acting on the
registry (the ordered route sequence the host accumulates via `app.use`):
with no handlers it throws before anything is registered; otherwise it
appends the compiled route (`compiled` stands for `createRoute`'s output,
whose pattern compilation lives in the external path-to-regexp
dependency). -/
def createRouteMethod {ρ : Type} (method : Option String) (path : String)
    (handlers : List (Middleware ρ)) (compiled : Route ρ) (registry : List (Route ρ)) :
    Except String (List (Route ρ)) :=
  if handlers.length = 0 then Except.error (routeErrMsg method path)
  else Except.ok (registry ++ [compiled])

/-- Split a character list at every `/` (used by the spec-modelled
matcher below). -/
def splitOnSlash : List Char → List (List Char)
  | [] => [[]]
  | '/' :: rest => [] :: splitOnSlash rest
  | c :: rest =>
    match splitOnSlash rest with
    | seg :: segs => (c :: seg) :: segs
    | [] => [[c]]

/-- Modelled from the spec: the matcher compiled from the pattern
`/api/:resource{/:id}` under the default options (the pattern compiler is
the external path-to-regexp dependency, not under src/) — literal `api`
matched case-insensitively (`sensitive=false`), `:resource` a non-empty
segment, the optional group `{/:id}` a further non-empty segment or
absent, one trailing delimiter tolerated (`trailing=true`), full-path
match required (`end=true`); capture slots are reported in declaration
order `[resource, id]` with `none` for a branch not taken (spec §4.1,
§8). -/
def apiResourceIdExec (p : String) : Option (List (Option String)) :=
  match splitOnSlash p.data with
  | [[], a, r] =>
    if a.map Char.toLower = ['a', 'p', 'i'] ∧ r ≠ [] then
      some [some (String.mk r), none]
    else none
  | [[], a, r, []] =>
    if a.map Char.toLower = ['a', 'p', 'i'] ∧ r ≠ [] then
      some [some (String.mk r), none]
    else none
  | [[], a, r, i] =>
    if a.map Char.toLower = ['a', 'p', 'i'] ∧ r ≠ [] ∧ i ≠ [] then
      some [some (String.mk r), some (String.mk i)]
    else none
  | [[], a, r, i, []] =>
    if a.map Char.toLower = ['a', 'p', 'i'] ∧ r ≠ [] ∧ i ≠ [] then
      some [some (String.mk r), some (String.mk i)]
    else none
  | _ => none

/-- Decidable equality for `Except`, so that concrete runs of the embedded
functions can be checked by `decide`. -/
instance {ε α : Type} [DecidableEq ε] [DecidableEq α] : DecidableEq (Except ε α) := fun a b =>
  match a, b with
  | Except.ok x, Except.ok y =>
    if h : x = y then isTrue (by rw [h]) else isFalse (by intro hc; cases hc; exact h rfl)
  | Except.error x, Except.error y =>
    if h : x = y then isTrue (by rw [h]) else isFalse (by intro hc; cases hc; exact h rfl)
  | Except.ok _, Except.error _ => isFalse (by intro hc; cases hc)
  | Except.error _, Except.ok _ => isFalse (by intro hc; cases hc)

/-- A compiled matcher accepting exactly one pathname, with no capture
groups (a literal pattern such as `/hoa`). -/
def okExec (target : String) : String → Option (List (Option String)) :=
  fun p => if p = target then some [] else none

/-- Modelled from the spec: the matcher compiled from the pattern `/:name`
(the pattern compiler is the external path-to-regexp dependency, not under
src/) — one non-empty delimiter-free segment, captured (spec §4.1). -/
def nameExec (p : String) : Option (List (Option String)) :=
  match p.data with
  | '/' :: rest => if rest ≠ [] ∧ '/' ∉ rest then some [some (String.mk rest)] else none
  | _ => none

/-- A GET route on the literal pattern `/hoa` whose handler chain calls
its `next` immediately. -/
def hoaRoute : Route Ctx :=
  { method := some "GET", path := "/hoa", exec := okExec "/hoa", keys := [],
    composed := passThrough }

/-- A GET route on the pattern `/:name` whose matcher also accepts the
pathname `/hoa`, and whose handler chain calls its `next` immediately. -/
def nameRoute : Route Ctx :=
  { method := some "GET", path := "/:name", exec := nameExec, keys := ["name"],
    composed := passThrough }

/-- A POST route on the pattern `/hoa` (method-mismatching a GET request). -/
def postRoute : Route Ctx :=
  { method := some "POST", path := "/hoa", exec := okExec "/hoa", keys := [],
    composed := passThrough }

/-- A GET request for `/hoa` with fresh (empty) parameter slots. -/
def hoaCtx : Ctx := { req := { method := "GET", pathname := "/hoa", params := [], routePath := none } }

/-- An outer host continuation that returns the final context unchanged. -/
def idOuter : Ctx → Except Unit Ctx := fun c => Except.ok c

/-! Helper lemmas. -/

theorem mk_eq_empty_iff (cs : List Char) : (String.mk cs = "") ↔ cs = [] := by
  constructor
  · intro h
    have := congrArg String.data h
    simpa using this
  · intro h; rw [h]

theorem objGet_objSet (ps : Params) (k v q : String) :
    objGet (objSet ps k v) q = if q = k then some v else objGet ps q := by
  induction ps with
  | nil =>
    simp only [objSet, objGet]
    by_cases h : q = k
    · subst h; simp
    · rw [if_neg (fun hh => h hh.symm), if_neg h]
  | cons kv rest ih =>
    by_cases h1 : kv.1 = k
    · simp only [objSet, if_pos h1, objGet]
      by_cases h2 : q = k
      · subst h2; rw [if_pos rfl, if_pos rfl]
      · rw [if_neg (fun hh => h2 hh.symm), if_neg h2, if_neg (h1 ▸ fun hh => h2 hh.symm)]
    · simp only [objSet, if_neg h1, objGet]
      by_cases h2 : kv.1 = q
      · have hqk : q ≠ k := fun hh => h1 (hh ▸ h2)
        rw [if_pos h2, if_neg hqk, if_pos h2]
      · rw [if_neg h2, if_neg h2, ih]

theorem assignPairs_nil (ps : Params) : assignPairs ps [] = ps := rfl

theorem assignPairs_cons_some (ps : Params) (k v : String) (rest : List (String × Option String)) :
    assignPairs ps ((k, some v) :: rest) = assignPairs (objSet ps k v) rest := rfl

theorem assignPairs_cons_none (ps : Params) (k : String) (rest : List (String × Option String)) :
    assignPairs ps ((k, none) :: rest) = assignPairs ps rest := rfl

theorem assignPairs_append (ps : Params) (l1 l2 : List (String × Option String)) :
    assignPairs ps (l1 ++ l2) = assignPairs (assignPairs ps l1) l2 :=
  List.foldl_append _ _ _ _

theorem objGet_assignPairs_skip :
    ∀ (pairs : List (String × Option String)) (ps : Params) (name : String),
      (∀ p ∈ pairs, p.1 = name → p.2 = none) →
      objGet (assignPairs ps pairs) name = objGet ps name := by
  intro pairs
  induction pairs with
  | nil => intro ps name _; rfl
  | cons p rest ih =>
    intro ps name h
    obtain ⟨k, a⟩ := p
    cases a with
    | none =>
      rw [assignPairs_cons_none]
      exact ih ps name (fun q hq hqn => h q (List.mem_cons_of_mem _ hq) hqn)
    | some v =>
      rw [assignPairs_cons_some]
      have hk : k ≠ name := by
        intro hkn
        exact Option.noConfusion (h (k, some v) (List.mem_cons_self _ _) hkn)
      rw [ih _ name (fun q hq hqn => h q (List.mem_cons_of_mem _ hq) hqn)]
      rw [objGet_objSet, if_neg (fun hn => hk hn.symm)]

theorem objGet_assignPairs_found (pre post : List (String × Option String)) (ps : Params)
    (name v : String) (hpost : ∀ p ∈ post, p.1 = name → p.2 = none) :
    objGet (assignPairs ps (pre ++ (name, some v) :: post)) name = some v := by
  rw [assignPairs_append, assignPairs_cons_some,
    objGet_assignPairs_skip post _ name hpost, objGet_objSet, if_pos rfl]

theorem objGet_assignPairs_mem :
    ∀ (pairs : List (String × Option String)) (ps : Params) (name v : String),
      objGet (assignPairs ps pairs) name = some v →
      (name, some v) ∈ pairs ∨ objGet ps name = some v := by
  intro pairs
  induction pairs with
  | nil => intro ps name v h; right; exact h
  | cons p rest ih =>
    intro ps name v h
    obtain ⟨k, a⟩ := p
    cases a with
    | none =>
      rw [assignPairs_cons_none] at h
      rcases ih ps name v h with hm | hg
      · exact Or.inl (List.mem_cons_of_mem _ hm)
      · exact Or.inr hg
    | some w =>
      rw [assignPairs_cons_some] at h
      rcases ih _ name v h with hm | hg
      · exact Or.inl (List.mem_cons_of_mem _ hm)
      · rw [objGet_objSet] at hg
        by_cases hnk : name = k
        · rw [if_pos hnk] at hg
          subst hnk
          injection hg with hg
          subst hg
          exact Or.inl (List.mem_cons_self _ _)
        · rw [if_neg hnk] at hg
          exact Or.inr hg

theorem tokLoop_afterHex_ne_nil (hi : Nat) (cs : List Char) (ts : List Tok)
    (h : tokLoop (EscState.afterHex hi) cs = some ts) : ts ≠ [] := by
  cases cs with
  | nil => cases h
  | cons c rest =>
    rw [tokLoop] at h
    rcases hd : hexDigit c with _ | lo <;> rw [hd] at h
    · cases h
    · rcases Option.map_eq_some'.mp h with ⟨ts', _, rfl⟩
      exact fun hx => List.noConfusion hx

theorem tokLoop_afterPct_ne_nil (cs : List Char) (ts : List Tok)
    (h : tokLoop EscState.afterPct cs = some ts) : ts ≠ [] := by
  cases cs with
  | nil => cases h
  | cons c rest =>
    rw [tokLoop] at h
    rcases hd : hexDigit c with _ | hi <;> rw [hd] at h
    · cases h
    · exact tokLoop_afterHex_ne_nil hi rest ts h

theorem tokenize_cons_ne_nil (c : Char) (cs : List Char) (ts : List Tok)
    (h : tokenize (c :: cs) = some ts) : ts ≠ [] := by
  rw [tokenize, tokLoop] at h
  by_cases hc : c = '%'
  · rw [if_pos hc] at h
    exact tokLoop_afterPct_ne_nil cs ts h
  · rw [if_neg hc] at h
    rcases Option.map_eq_some'.mp h with ⟨ts', _, rfl⟩
    exact fun hx => List.noConfusion hx

theorem utf8Loop_pending_ne_nil :
    ∀ (ts : List Tok) (st : Nat × Nat × Nat) (cs : List Char),
      utf8Loop (some st) ts = some cs → cs ≠ [] := by
  intro ts
  induction ts with
  | nil => intro st cs h; cases h
  | cons t rest ih =>
    intro st cs h
    obtain ⟨acc, rem, mn⟩ := st
    cases t with
    | lit c => cases h
    | byte b =>
      rw [utf8Loop] at h
      split at h
      · split at h
        · split at h
          · rcases Option.map_eq_some'.mp h with ⟨cs', _, rfl⟩
            exact fun hx => List.noConfusion hx
          · cases h
        · exact ih _ cs h
      · cases h

theorem utf8Units_cons_ne_nil (t : Tok) (ts : List Tok) (cs : List Char)
    (h : utf8Units (t :: ts) = some cs) : cs ≠ [] := by
  cases t with
  | lit c =>
    rw [utf8Units, utf8Loop] at h
    rcases Option.map_eq_some'.mp h with ⟨cs', _, rfl⟩
    exact fun hx => List.noConfusion hx
  | byte b =>
    rw [utf8Units, utf8Loop] at h
    split at h
    · rcases Option.map_eq_some'.mp h with ⟨cs', _, rfl⟩
      exact fun hx => List.noConfusion hx
    · split at h
      · cases h
      · split at h
        · exact utf8Loop_pending_ne_nil ts _ cs h
        · split at h
          · exact utf8Loop_pending_ne_nil ts _ cs h
          · split at h
            · exact utf8Loop_pending_ne_nil ts _ cs h
            · cases h

theorem decodeURIComponent_ne_empty (s t : String)
    (hs : s ≠ "") (h : decodeURIComponent s = Except.ok t) : t ≠ "" := by
  rw [decodeURIComponent] at h
  split at h
  · cases h
  · rename_i ts h1
    split at h
    · cases h
    · rename_i cs h2
      injection h with h
      subst h
      have hsd : s.data ≠ [] := by
        intro hd
        apply hs
        cases s
        exact (mk_eq_empty_iff _).mpr hd
      have hts : ts ≠ [] := by
        cases hdata : s.data with
        | nil => exact absurd hdata hsd
        | cons c cs' =>
          rw [hdata] at h1
          exact tokenize_cons_ne_nil c cs' ts h1
      have hcs : cs ≠ [] := by
        cases ts with
        | nil => exact absurd rfl hts
        | cons t' ts' => exact utf8Units_cons_ne_nil t' ts' cs h2
      intro he
      exact hcs ((mk_eq_empty_iff cs).mp he)

theorem decode_falsy (c : Option String) (h : c = none ∨ c = some "") :
    decode c = Except.ok none := by
  rcases h with rfl | rfl <;> rfl

theorem decode_ok_some (c : Option String) (v : String) (h : decode c = Except.ok (some v)) :
    ∃ raw, c = some raw ∧ raw ≠ "" ∧ decodeURIComponent raw = Except.ok v := by
  cases c with
  | none => cases h
  | some raw =>
    rw [decode] at h
    by_cases he : raw = ""
    · rw [if_pos he] at h
      cases h
    · rw [if_neg he] at h
      rcases hd : decodeURIComponent raw with e | d <;> rw [hd] at h
      · cases h
      · injection h with h
        injection h with h
        subst h
        exact ⟨raw, rfl, he, hd⟩

theorem mapDecode_ok :
    ∀ (caps args : List (Option String)), mapDecode caps = Except.ok args →
      List.Forall₂ (fun c a => decode c = Except.ok a) caps args := by
  intro caps
  induction caps with
  | nil =>
    intro args h
    injection h with h
    subst h
    exact List.Forall₂.nil
  | cons c rest ih =>
    intro args h
    rw [mapDecode] at h
    rcases hd : decode c with e | d <;> rw [hd] at h
    · cases h
    · rcases ht : mapDecode rest with e | ds <;> rw [ht] at h
      · cases h
      · injection h with h
        subst h
        exact List.Forall₂.cons hd (ih ds ht)

theorem forall₂_zip {R : Option String → Option String → Prop} :
    ∀ (keys : List String) (caps args : List (Option String)), List.Forall₂ R caps args →
      List.Forall₂ (fun (p q : String × Option String) => p.1 = q.1 ∧ R p.2 q.2)
        (keys.zip caps) (keys.zip args) := by
  intro keys
  induction keys with
  | nil => intro caps args _; exact List.Forall₂.nil
  | cons k kt ih =>
    intro caps args h
    cases h with
    | nil => exact List.Forall₂.nil
    | cons hR htail => exact List.Forall₂.cons ⟨rfl, hR⟩ (ih _ _ htail)

theorem forall₂_mem_right {α β : Type} {S : α → β → Prop} :
    ∀ (l : List α) (l' : List β), List.Forall₂ S l l' → ∀ q ∈ l', ∃ p ∈ l, S p q := by
  intro l l' h
  induction h with
  | nil => intro q hq; cases hq
  | cons hS _ ih =>
    intro q hq
    rcases List.mem_cons.mp hq with rfl | hq'
    · exact ⟨_, List.mem_cons_self _ _, hS⟩
    · rcases ih q hq' with ⟨p, hp, hS'⟩
      exact ⟨p, List.mem_cons_of_mem _ hp, hS'⟩

theorem forall₂_decomp {α β : Type} {S : α → β → Prop} :
    ∀ (pre : List α) (l : List α) (l' : List β) (x : α) (post : List α),
      List.Forall₂ S l l' → l = pre ++ x :: post →
      ∃ preA y postA, l' = preA ++ y :: postA ∧ S x y ∧ List.Forall₂ S post postA := by
  intro pre
  induction pre with
  | nil =>
    intro l l' x post h hl
    subst hl
    cases h with
    | cons hS htail => exact ⟨[], _, _, rfl, hS, htail⟩
  | cons p pt ih =>
    intro l l' x post h hl
    subst hl
    rw [List.cons_append] at h
    cases h with
    | cons hS htail =>
      rcases ih _ _ x post htail rfl with ⟨preA, y, postA, rfl, hSx, hpost⟩
      exact ⟨_ :: preA, y, postA, rfl, hSx, hpost⟩

theorem buildParams_origin (keys : List String) (caps : List (Option String)) (ps : Params)
    (name v : String) (hbp : buildParams keys caps = Except.ok ps)
    (hget : objGet ps name = some v) :
    ∃ raw, (name, some raw) ∈ keys.zip caps ∧ raw ≠ "" ∧
      decodeURIComponent raw = Except.ok v := by
  rw [buildParams] at hbp
  rcases hmd : mapDecode caps with e | args <;> rw [hmd] at hbp
  · cases hbp
  · injection hbp with hbp
    subst hbp
    rw [assignParams] at hget
    rcases objGet_assignPairs_mem (keys.zip args) [] name v hget with hmem | hnil
    · have hz := forall₂_zip keys caps args (mapDecode_ok caps args hmd)
      rcases forall₂_mem_right _ _ hz (name, some v) hmem with ⟨p, hp, hp1, hp2⟩
      rcases decode_ok_some p.2 v hp2 with ⟨raw, hpr, hrne, hdec⟩
      refine ⟨raw, ?_, hrne, hdec⟩
      have hpe : p = (name, some raw) := Prod.ext hp1 hpr
      rw [← hpe]
      exact hp
    · cases hnil

theorem methodMatches_eq (ctx : Ctx) (m : String) :
    methodMatches ctx (some m) =
      (decide (ctx.req.method = m) || (decide (m = "GET") && decide (ctx.req.method = "HEAD"))) := by
  rw [methodMatches]
  by_cases h1 : ctx.req.method = m <;> by_cases h2 : m = "GET" <;>
    by_cases h3 : ctx.req.method = "HEAD" <;> simp [h1, h2, h3]

theorem routeMiddleware_skip {ρ : Type} (r : Route ρ) (ctx : Ctx) (next : Ctx → Except Unit ρ)
    (h : routeMatch r ctx = none) : routeMiddleware r ctx next = next ctx := by
  rw [routeMatch] at h
  cases hmm : methodMatches ctx r.method
  · simp [routeMiddleware, hmm]
  · rw [hmm] at h
    simp at h
    simp [routeMiddleware, hmm, h]

theorem routeMiddleware_hit {ρ : Type} (r : Route ρ) (ctx : Ctx) (next : Ctx → Except Unit ρ)
    (caps : List (Option String)) (ps : Params)
    (hm : routeMatch r ctx = some caps) (hp : buildParams r.keys caps = Except.ok ps) :
    routeMiddleware r ctx next = r.composed (setMatch ctx ps r.path) next := by
  rw [routeMatch] at hm
  cases hmm : methodMatches ctx r.method
  · rw [hmm] at hm
    simp at hm
  · rw [hmm] at hm
    simp at hm
    simp [routeMiddleware, hmm, hm, hp]

theorem dispatch_nil {ρ : Type} (outer : Ctx → Except Unit ρ) (ctx : Ctx) :
    dispatch [] outer ctx = outer ctx := rfl

theorem dispatch_cons {ρ : Type} (r : Route ρ) (rs : List (Route ρ))
    (outer : Ctx → Except Unit ρ) (ctx : Ctx) :
    dispatch (r :: rs) outer ctx = routeMiddleware r ctx (dispatch rs outer) := rfl

theorem dispatch_no_match {ρ : Type} (rs : List (Route ρ)) (outer : Ctx → Except Unit ρ)
    (ctx : Ctx) (h : ∀ r ∈ rs, routeMatch r ctx = none) : dispatch rs outer ctx = outer ctx := by
  induction rs with
  | nil => rfl
  | cons r rest ih =>
    rw [dispatch_cons, routeMiddleware_skip r ctx _ (h r (List.mem_cons_self _ _))]
    exact ih (fun r' hr' => h r' (List.mem_cons_of_mem _ hr'))

theorem routeMatch_setMatch {ρ : Type} (r : Route ρ) (ctx : Ctx) (ps : Params) (path : String) :
    routeMatch r (setMatch ctx ps path) = routeMatch r ctx := rfl

theorem setMatch_setMatch (ctx : Ctx) (ps₀ ps : Params) (p₀ p : String) :
    setMatch (setMatch ctx ps₀ p₀) ps p = setMatch ctx ps p := rfl

/-! Claim theorems. -/

/-- Claim C1: when dispatch reaches the first registered route whose
method matches and whose matcher accepts the request's pathname (every
earlier-registered route fails to match), it writes the decoded parameter
mapping onto the request's params slot (wholesale replacement of any
prior value), records the route's original pattern string in the
routePath slot, and invokes that route's composed handler chain exactly
once — the equation holds for an arbitrary composed handler — passing as
the chain's terminal `next` the continuation the host hands that route
middleware (the remaining pipeline, terminating in the host's outer
continuation).  The routes after the matched one are unconstrained, so
when two registered routes could both match, the earlier-registered one
is invoked and its pattern is the routePath recorded. -/
theorem claim1_first_match_dispatch {ρ : Type} (rs₁ rs₂ : List (Route ρ)) (r : Route ρ)
    (outer : Ctx → Except Unit ρ) (ctx : Ctx) (caps : List (Option String)) (ps : Params)
    (hpre : ∀ r' ∈ rs₁, routeMatch r' ctx = none)
    (hm : routeMatch r ctx = some caps)
    (hp : buildParams r.keys caps = Except.ok ps) :
    dispatch (rs₁ ++ r :: rs₂) outer ctx =
      r.composed (setMatch ctx ps r.path) (dispatch rs₂ outer) := by
  induction rs₁ with
  | nil =>
    rw [List.nil_append, dispatch_cons]
    exact routeMiddleware_hit r ctx _ caps ps hm hp
  | cons r₀ rt ih =>
    rw [List.cons_append, dispatch_cons,
      routeMiddleware_skip r₀ ctx _ (hpre r₀ (List.mem_cons_self _ _))]
    exact ih (fun r' hr' => hpre r' (List.mem_cons_of_mem _ hr'))

/-- Witness for C1: of two GET routes whose matchers both accept the
pathname `/hoa`, dispatch invokes the first-registered one's handler
chain on the context carrying its pattern. -/
theorem claim1_witness :
    dispatch [hoaRoute, nameRoute] idOuter hoaCtx =
      hoaRoute.composed (setMatch hoaCtx [] "/hoa") (dispatch [nameRoute] idOuter) :=
  claim1_first_match_dispatch [] [nameRoute] hoaRoute idOuter hoaCtx [] []
    (fun r hr => absurd hr (List.not_mem_nil r)) (by decide) (by decide)

/-- Claim C2: the method matcher is a pure function with exactly these
rules — an absent route verb (catch-all) matches every request verb;
equal verbs match; route verb GET matches request verb HEAD; nothing
else matches (the Boolean equation below determines its value on every
input). -/
theorem claim2_methodMatches_rules (ctx : Ctx) (m : String) :
    methodMatches ctx none = true ∧
    methodMatches ctx (some m) =
      (decide (ctx.req.method = m) || (decide (m = "GET") && decide (ctx.req.method = "HEAD"))) :=
  ⟨rfl, methodMatches_eq ctx m⟩

/-- Claim C3: a successful match emits only decoded concrete captures —
when every raw slot declared for a name is absent or empty, that name is
entirely absent from the mapping (never bound to the empty string), and
every bound value arises from percent-decoding a non-empty raw capture
declared for that name; in particular the spec-modelled matcher for
`/api/:resource{/:id}` on `/api/users` yields resource bound to "users"
with no id key present, and on `/api/users/1` yields resource bound to
"users" and id bound to "1". -/
theorem claim3_optional_params :
    (∀ (keys : List String) (caps : List (Option String)) (ps : Params) (name : String),
        buildParams keys caps = Except.ok ps →
        (∀ p ∈ keys.zip caps, p.1 = name → p.2 = none ∨ p.2 = some "") →
        objGet ps name = none) ∧
    (∀ (keys : List String) (caps : List (Option String)) (ps : Params) (name v : String),
        buildParams keys caps = Except.ok ps → objGet ps name = some v →
        ∃ raw, (name, some raw) ∈ keys.zip caps ∧ raw ≠ "" ∧
          decodeURIComponent raw = Except.ok v) ∧
    apiResourceIdExec "/api/users" = some [some "users", none] ∧
    buildParams ["resource", "id"] [some "users", none] = Except.ok [("resource", "users")] ∧
    objGet [("resource", "users")] "resource" = some "users" ∧
    objGet [("resource", "users")] "id" = none ∧
    apiResourceIdExec "/api/users/1" = some [some "users", some "1"] ∧
    buildParams ["resource", "id"] [some "users", some "1"] =
      Except.ok [("resource", "users"), ("id", "1")] := by
  refine ⟨?_, ?_, by decide, by decide, by decide, by decide, by decide, by decide⟩
  · intro keys caps ps name hbp hall
    rw [buildParams] at hbp
    rcases hmd : mapDecode caps with e | args <;> rw [hmd] at hbp
    · cases hbp
    · injection hbp with hbp
      subst hbp
      rw [assignParams]
      have hz := forall₂_zip keys caps args (mapDecode_ok caps args hmd)
      have hargs : ∀ q ∈ keys.zip args, q.1 = name → q.2 = none := by
        intro q hq hqn
        rcases forall₂_mem_right _ _ hz q hq with ⟨p, hp, hp1, hp2⟩
        have hpn := hall p hp (hp1.trans hqn)
        rw [decode_falsy p.2 hpn] at hp2
        injection hp2 with hp2
        exact hp2.symm
      rw [objGet_assignPairs_skip (keys.zip args) [] name hargs]
      rfl
  · intro keys caps ps name v hbp hget
    exact buildParams_origin keys caps ps name v hbp hget

/-- Witness for C3: a single declared name whose only raw slot is absent
is missing from the emitted mapping. -/
theorem claim3_witness :
    buildParams ["id"] [none] = Except.ok [] ∧ objGet [] "id" = none :=
  ⟨by decide, claim3_optional_params.1 ["id"] [none] [] "id" (by decide) (by decide)⟩

/-- Claim C4: when a capture name is declared at several positions
(duplicate names from alternative optional branches, so every slot of the
name other than one concrete position is absent or empty), the emitted
mapping keeps the decoded value of that first concrete position — later
absent or empty slots of the name never overwrite it. -/
theorem claim4_duplicate_keys_first_concrete (keys : List String) (caps : List (Option String))
    (ps : Params) (name v raw : String) (pre post : List (String × Option String))
    (hbp : buildParams keys caps = Except.ok ps)
    (hdecomp : keys.zip caps = pre ++ (name, some raw) :: post)
    (hraw : raw ≠ "") (hdec : decodeURIComponent raw = Except.ok v)
    (hpre : ∀ p ∈ pre, p.1 = name → p.2 = none ∨ p.2 = some "")
    (hpost : ∀ p ∈ post, p.1 = name → p.2 = none ∨ p.2 = some "") :
    objGet ps name = some v := by
  rw [buildParams] at hbp
  rcases hmd : mapDecode caps with e | args <;> rw [hmd] at hbp
  · cases hbp
  · injection hbp with hbp
    subst hbp
    have hz := forall₂_zip keys caps args (mapDecode_ok caps args hmd)
    rcases forall₂_decomp pre _ _ (name, some raw) post hz hdecomp with
      ⟨preA, y, postA, hxa, ⟨hy1, hy2⟩, hpostA⟩
    have hdecoded : decode (some raw) = Except.ok (some v) := by
      rw [decode, if_neg hraw, hdec]
    rw [hdecoded] at hy2
    injection hy2 with hy2
    have hy : y = (name, some v) := Prod.ext hy1.symm hy2.symm
    subst hy
    rw [assignParams, hxa]
    refine objGet_assignPairs_found preA postA [] name v ?_
    intro q hq hqn
    rcases forall₂_mem_right _ _ hpostA q hq with ⟨p, hp, hp1, hp2⟩
    have hpn := hpost p hp (hp1.trans hqn)
    rw [decode_falsy p.2 hpn] at hp2
    injection hp2 with hp2
    exact hp2.symm

/-- Witness for C4: the name `id` declared twice, concrete in its first
slot and absent in its second, is bound to the first slot's value. -/
theorem claim4_witness :
    buildParams ["id", "id"] [some "1", none] = Except.ok [("id", "1")] ∧
    objGet [("id", "1")] "id" = some "1" :=
  ⟨by decide,
    claim4_duplicate_keys_first_concrete ["id", "id"] [some "1", none] [("id", "1")]
      "id" "1" "1" [] [("id", none)] (by decide) (by decide) (by decide) (by decide)
      (fun p hp => absurd hp (List.not_mem_nil p)) (by decide)⟩

/-- Counterexample to C5 as stated: on the captured raw value `%`, whose
percent-encoding is invalid, the decode helper propagates the URIError
(modelled as an error value) instead of passing the raw text through —
decoding does throw. -/
theorem claim5_counterexample :
    decode (some "%") = Except.error () ∧ decode (some "%") ≠ Except.ok (some "%") :=
  ⟨by decide, by decide⟩

/-- Claim C5 (amended): for every captured raw value whose
percent-encoding is invalid (`decodeURIComponent` throws), the decode
helper does not catch the error — the URIError propagates and fails the
request, rather than the raw text being passed through. -/
theorem claim5_decode_error_propagates (v : String)
    (h : decodeURIComponent v = Except.error ()) : decode (some v) = Except.error () := by
  rw [decode]
  by_cases he : v = ""
  · subst he
    exact absurd h (by decide)
  · rw [if_neg he, h]

/-- Witness for C5 (amended): the invalid escape `%A` makes
`decodeURIComponent` throw and `decode` propagates it. -/
theorem claim5_witness :
    decodeURIComponent "%A" = Except.error () ∧ decode (some "%A") = Except.error () :=
  ⟨by decide, claim5_decode_error_propagates "%A" (by decide)⟩

/-- Claim C6: registering any verb (or the catch-all) with an empty
handler sequence fails synchronously with an error message containing the
verb (the literal "ALL" for the catch-all) and the pattern text, and
produces no updated registry — the failed call adds no route that a
subsequent request could match. -/
theorem claim6_no_handlers_error {ρ : Type} (method : Option String) (path : String)
    (compiled : Route ρ) (registry : List (Route ρ)) :
    createRouteMethod method path [] compiled registry =
      Except.error (routeErrMsg method path) ∧
    (∃ pre post : String, routeErrMsg method path = pre ++ method.getD "ALL" ++ post) ∧
    (∃ pre post : String, routeErrMsg method path = pre ++ path ++ post) := by
  refine ⟨rfl, ⟨"Route ", " " ++ path ++ " must have at least one handler", ?_⟩,
    ⟨"Route " ++ method.getD "ALL" ++ " ", " must have at least one handler", ?_⟩⟩
  · simp [routeErrMsg, String.append_assoc]
  · simp [routeErrMsg, String.append_assoc]

/-- Claim C7: a route middleware whose method gate or path matcher fails
invokes its continuation on the untouched context (no parameter structure
is built, nothing is thrown, the params and routePath slots are left
unchanged), and when no registered route matches the request at all,
dispatch reduces to the host's outer continuation applied to the
unchanged context. -/
theorem claim7_mismatch_no_effects {ρ : Type} :
    (∀ (r : Route ρ) (ctx : Ctx) (next : Ctx → Except Unit ρ),
        routeMatch r ctx = none → routeMiddleware r ctx next = next ctx) ∧
    (∀ (rs : List (Route ρ)) (outer : Ctx → Except Unit ρ) (ctx : Ctx),
        (∀ r ∈ rs, routeMatch r ctx = none) → dispatch rs outer ctx = outer ctx) :=
  ⟨routeMiddleware_skip, dispatch_no_match⟩

/-- Witness for C7: a POST route neither fires nor modifies the context
on a GET request; dispatch over it defers to the outer continuation. -/
theorem claim7_witness :
    routeMatch postRoute hoaCtx = none ∧
    routeMiddleware postRoute hoaCtx idOuter = idOuter hoaCtx ∧
    dispatch [postRoute] idOuter hoaCtx = idOuter hoaCtx :=
  ⟨by decide, claim7_mismatch_no_effects.1 postRoute hoaCtx idOuter (by decide),
    claim7_mismatch_no_effects.2 [postRoute] idOuter hoaCtx
      (by
        intro r hr
        rw [List.mem_singleton] at hr
        subst hr
        decide)⟩

/-- Claim C8: when every handler chain invokes its terminal `next`,
dispatch proceeds through later-registered route middlewares, and each
later route that also matches overwrites the request's params and
routePath slots — the outer continuation observes the slots written by
the last matching route whose middleware ran, not necessarily the first
match. -/
theorem claim8_next_overwrites {ρ : Type} (rs₁ rs₂ : List (Route ρ)) (r : Route ρ)
    (outer : Ctx → Except Unit ρ) (ctx : Ctx) (caps : List (Option String)) (ps : Params)
    (hpass : ∀ m ∈ rs₁ ++ r :: rs₂, Route.composed m = passThrough)
    (hpre : ∀ r' ∈ rs₁, routeMatch r' ctx = none ∨
      ∃ caps' ps', routeMatch r' ctx = some caps' ∧ buildParams r'.keys caps' = Except.ok ps')
    (hm : routeMatch r ctx = some caps)
    (hp : buildParams r.keys caps = Except.ok ps)
    (hpost : ∀ r' ∈ rs₂, routeMatch r' ctx = none) :
    dispatch (rs₁ ++ r :: rs₂) outer ctx = outer (setMatch ctx ps r.path) := by
  induction rs₁ generalizing ctx with
  | nil =>
    rw [List.nil_append, dispatch_cons, routeMiddleware_hit r ctx _ caps ps hm hp,
      hpass r (List.mem_cons_self _ _)]
    show dispatch rs₂ outer (setMatch ctx ps r.path) = outer (setMatch ctx ps r.path)
    exact dispatch_no_match rs₂ outer _
      (fun r' hr' => by rw [routeMatch_setMatch]; exact hpost r' hr')
  | cons r₀ rt ih =>
    rcases hpre r₀ (List.mem_cons_self _ _) with h0 | ⟨caps₀, ps₀, hm₀, hp₀⟩
    · rw [List.cons_append, dispatch_cons, routeMiddleware_skip r₀ ctx _ h0]
      exact ih ctx (fun m hm' => hpass m (List.mem_cons_of_mem _ hm'))
        (fun r' hr' => hpre r' (List.mem_cons_of_mem _ hr')) hm hpost
    · rw [List.cons_append, dispatch_cons, routeMiddleware_hit r₀ ctx _ caps₀ ps₀ hm₀ hp₀,
        hpass r₀ (List.mem_cons_self _ _)]
      show dispatch (rt ++ r :: rs₂) outer (setMatch ctx ps₀ r₀.path) =
        outer (setMatch ctx ps r.path)
      rw [← setMatch_setMatch ctx ps₀ ps r₀.path r.path]
      exact ih (setMatch ctx ps₀ r₀.path)
        (fun m hm' => hpass m (List.mem_cons_of_mem _ hm'))
        (fun r' hr' => by
          rcases hpre r' (List.mem_cons_of_mem _ hr') with hn | ⟨c', p', h1, h2⟩
          · exact Or.inl (by rw [routeMatch_setMatch]; exact hn)
          · exact Or.inr ⟨c', p', by rw [routeMatch_setMatch]; exact h1, h2⟩)
        (by rw [routeMatch_setMatch]; exact hm)
        (fun r' hr' => by rw [routeMatch_setMatch]; exact hpost r' hr')

/-- Witness for C8: two pass-through GET routes both match `/hoa`; the
outer continuation sees the params and routePath of the later one. -/
theorem claim8_witness :
    dispatch [hoaRoute, nameRoute] idOuter hoaCtx =
      idOuter (setMatch hoaCtx [("name", "hoa")] "/:name") :=
  claim8_next_overwrites [hoaRoute] [] nameRoute idOuter hoaCtx [some "hoa"] [("name", "hoa")]
    (by
      intro m hm
      rcases List.mem_cons.mp hm with rfl | hm'
      · rfl
      · rcases List.mem_cons.mp hm' with rfl | hm''
        · rfl
        · cases hm'')
    (by
      intro r' hr'
      rw [List.mem_singleton] at hr'
      subst hr'
      exact Or.inr ⟨[], [], by decide, by decide⟩)
    (by decide) (by decide)
    (fun r' hr' => absurd hr' (List.not_mem_nil r'))

/-- Claim C9: every value present in an emitted parameter mapping is a
non-empty string — empty or absent raw captures are skipped before
assignment, and percent-decoding a non-empty raw capture cannot produce
the empty string. -/
theorem claim9_params_nonempty (keys : List String) (caps : List (Option String)) (ps : Params)
    (name v : String) (hbp : buildParams keys caps = Except.ok ps)
    (hget : objGet ps name = some v) : v ≠ "" := by
  rcases buildParams_origin keys caps ps name v hbp hget with ⟨raw, _, hraw, hdec⟩
  exact decodeURIComponent_ne_empty raw v hraw hdec

/-- Witness for C9: the concrete mapping built from one concrete capture
binds a non-empty value. -/
theorem claim9_witness :
    buildParams ["a"] [some "x"] = Except.ok [("a", "x")] ∧ ("x" : String) ≠ "" :=
  ⟨by decide, claim9_params_nonempty ["a"] [some "x"] [("a", "x")] "a" "x" (by decide) (by decide)⟩

/-- Claim C10: method comparison is exact string equality with no case
normalization by the router — a GET-registered route does not match a
request whose method string is the lowercase "get", the HEAD fallback is
one-directional (a HEAD-registered route never matches a GET request),
and in general the matcher's Boolean value is exact equality plus the
GET-serves-HEAD rule, nothing else. -/
theorem claim10_method_exact_equality :
    methodMatches { req := { method := "get", pathname := "/hoa", params := [], routePath := none } }
      (some "GET") = false ∧
    methodMatches { req := { method := "GET", pathname := "/hoa", params := [], routePath := none } }
      (some "HEAD") = false ∧
    ∀ (ctx : Ctx) (m : String),
      methodMatches ctx (some m) =
        (decide (ctx.req.method = m) || (decide (m = "GET") && decide (ctx.req.method = "HEAD"))) :=
  ⟨by decide, by decide, methodMatches_eq⟩

end HoaRouter
